import Mathlib

/-!
Verification of the Choom signal-bridge against its specification.

This file shallowly embeds the parts of the bridge that the checked
claims are about:

* the JSON-like configuration documents and `_deep_merge` / `load_config` /
  `save_config` / `is_quiet_period` from `task_config.py`;
* the weather-condition evaluator `_eval_weather_condition` from
  `scheduler.py` and the system health check `_system_health_check`;
* the RPC transport state touched by `SignalHandler.disconnect` and the
  waiter resume path of `SignalHandler._send_request` from
  `signal_handler.py`;
* the envelope parser `MessageParser.parse_envelope` and the intent
  resolver `MessageParser.extract_choom_name` from `signal_handler.py`;
* the user-activity map of `ChoomClient` (`record_user_activity`,
  `is_user_active`) from `choom_client.py`, together with the call order
  of `SignalBridge._process_message` from `bridge.py`;
* the list-name alias resolution `SignalBridge._resolve_list_name` from
  `bridge.py`.

Python dictionaries are modelled as association lists with distinct keys,
machine floats that only ever hold exactly representable numeric values as
integers, and wall-clock instants as integers.  Each definition is
transcribed from the source file named in its doc comment.
-/

namespace Choom

/-! ## JSON documents

`task_config.py` and the envelope parser operate on decoded JSON values
(Python dicts, lists, strings, numbers, booleans, `None`).  `J` models such
a value; `Fields` models a dict as an ordered association list and `JList`
models a list.  The three types are mutually inductive so that every
function on them is a plain structural recursion.
-/

mutual

inductive J where
  | null : J
  | bool (b : Bool) : J
  | num (n : Int) : J
  | str (s : String) : J
  | arr (xs : JList) : J
  | obj (fs : Fields) : J
  deriving DecidableEq

inductive JList where
  | nil : JList
  | cons (hd : J) (tl : JList) : JList
  deriving DecidableEq

inductive Fields where
  | nil : Fields
  | cons (k : String) (v : J) (tl : Fields) : Fields
  deriving DecidableEq

end

/-- First-match association-list lookup; `d[k]` / `d.get(k)` on a Python
dict (whose keys are unique, so first match is the match). -/
def lookupF (k : String) : Fields → Option J
  | .nil => none
  | .cons k2 v rest => if k = k2 then some v else lookupF k rest

/-- `k in d` on a Python dict. -/
def hasKeyF (k : String) (fs : Fields) : Bool :=
  (lookupF k fs).isSome

/-- In-place update of the first binding of `k`; `d[k] = v` for a key that
is already present (Python keeps the key position). -/
def updateF (k : String) (v : J) : Fields → Fields
  | .nil => .nil
  | .cons k2 w rest => if k = k2 then .cons k2 v rest else .cons k2 w (updateF k v rest)

/-- Appending a fresh binding at the end; `d[k] = v` for a key that is not
yet present (Python appends new keys in insertion order). -/
def appendF (fs : Fields) (k : String) (v : J) : Fields :=
  match fs with
  | .nil => .cons k v .nil
  | .cons k2 w rest => .cons k2 w (appendF rest k v)

/-- Build a `Fields` association list from a Lean list of pairs. -/
def fieldsOfList : List (String × J) → Fields
  | [] => .nil
  | (k, v) :: rest => .cons k v (fieldsOfList rest)

/-- The keys of a dict, in order. -/
def keysF : Fields → List String
  | .nil => []
  | .cons k _ rest => k :: keysF rest

/-- Python truthiness of a decoded JSON value: `None`, `False`, `0`, `""`,
`[]` and `{}` are falsy, everything else is truthy. -/
def pyTruthy : J → Bool
  | .null => false
  | .bool b => b
  | .num n => n != 0
  | .str s => s != ""
  | .arr .nil => false
  | .arr (.cons _ _) => true
  | .obj .nil => false
  | .obj (.cons _ _ _) => true

/-- Python `a or b` on JSON values: `a` when truthy, else `b`. -/
def pyOr (a b : J) : J :=
  if pyTruthy a then a else b

/-- `o.get(k, default)` where `o` is a dict (`.get` on a non-dict raises in
Python; the theorems below only apply the model where the value is a dict). -/
def jgetD (o : J) (k : String) (d : J) : J :=
  match o with
  | .obj fs => (lookupF k fs).getD d
  | _ => d

/-- `k in o` for a dict `o` (`in` on a non-dict raises in Python; the
theorems below only apply the model where the value is a dict). -/
def jHasKey (o : J) (k : String) : Bool :=
  match o with
  | .obj fs => hasKeyF k fs
  | _ => false

/-! ## Configuration store (`task_config.py`)

`DEFAULT_CONFIG`, `_deep_merge`, `save_config`, `load_config` and
`is_quiet_period`, transcribed from `task_config.py`.
-/

/-- `DEFAULT_CONFIG` from `task_config.py`. -/
def DEFAULT_CONFIG : Fields := fieldsOfList [
  ("tasks", .obj (fieldsOfList [
    ("morning_briefing", .obj (fieldsOfList [("enabled", .bool true), ("time", .str "07:00")])),
    ("weather_check_07:00", .obj (fieldsOfList [("enabled", .bool true), ("time", .str "07:00")])),
    ("weather_check_12:00", .obj (fieldsOfList [("enabled", .bool true), ("time", .str "12:00")])),
    ("weather_check_18:00", .obj (fieldsOfList [("enabled", .bool true), ("time", .str "18:00")])),
    ("aurora_check_12:00", .obj (fieldsOfList [("enabled", .bool true), ("time", .str "12:00")])),
    ("aurora_check_18:00", .obj (fieldsOfList [("enabled", .bool true), ("time", .str "18:00")])),
    ("system_health", .obj (fieldsOfList [("enabled", .bool true), ("interval_minutes", .num 30)])),
    ("yt_download", .obj (fieldsOfList [("enabled", .bool false), ("time", .str "04:00")]))])),
  ("yt_downloader", .obj (fieldsOfList [
    ("max_videos_per_channel", .num 3),
    ("channels", .arr .nil)])),
  ("heartbeat", .obj (fieldsOfList [
    ("quiet_start", .str "21:00"),
    ("quiet_end", .str "06:00")]))]

mutual

/-- `_deep_merge(base, override)` from `task_config.py`: walk the override
dict in order; recurse where both sides hold dicts, otherwise the override
value replaces (or extends) the base. -/
def mergeFields : Fields → Fields → Fields
  | bs, .nil => bs
  | bs, .cons k v rest => mergeFields (applyKey bs k v) rest

/-- One iteration of the `_deep_merge` loop body for key `k`, value `v`. -/
def applyKey (bs : Fields) (k : String) (v : J) : Fields :=
  match lookupF k bs, v with
  | some (.obj bw), .obj ov => updateF k (.obj (mergeFields bw ov)) bs
  | some _, _ => updateF k v bs
  | none, _ => appendF bs k v

end

/-- The configuration file on disk: `none` when missing, otherwise the
JSON document last written. -/
def ConfigFile := Option Fields

/-- `save_config(config)` from `task_config.py`: overwrite the file with
the document (the bridge always writes whole documents). -/
def save_config (d : Fields) : ConfigFile :=
  some d

/-- `load_config()` from `task_config.py`: when the file exists its content
is deep-merged over `DEFAULT_CONFIG`; when missing the defaults are written
and returned. -/
def load_config (file : ConfigFile) : Fields :=
  match file with
  | some c => mergeFields DEFAULT_CONFIG c
  | none => DEFAULT_CONFIG

/-- `is_quiet_period()` from `task_config.py`, after the configured
`"HH:MM"` strings have been split into hour and minute integers exactly as
`map(int, quiet_start.split(":"))` does; `now_h`/`now_m` are
`datetime.now().hour` and `.minute`. -/
def is_quiet_period (start_h start_m end_h end_m now_h now_m : Nat) : Bool :=
  let current_minutes := now_h * 60 + now_m
  let start_minutes := start_h * 60 + start_m
  let end_minutes := end_h * 60 + end_m
  if start_minutes ≤ end_minutes then
    decide (start_minutes ≤ current_minutes ∧ current_minutes < end_minutes)
  else
    decide (current_minutes ≥ start_minutes ∨ current_minutes < end_minutes)

/-! ### Document equality and key-superset predicates

Python compares dicts by key set and pointwise value equality, ignoring
insertion order.  `jeq` is that equality on the model.  `supFields base d`
is the hypothesis of the round-trip claim: at every nesting level where
the base (the defaults) holds a sub-dict, the keys of `d` include the keys
of the base.  `nodupKeysF` / `nodupDeepF` state that a document is a real
Python dict tree: no duplicate keys at any level.
-/

/-- Every key of the first dict occurs in the second dict. -/
def keysIncluded : Fields → Fields → Bool
  | .nil, _ => true
  | .cons k _ rest, gs => hasKeyF k gs && keysIncluded rest gs

mutual

/-- Python `==` on decoded JSON values (dicts by key set and values). -/
def jeq : J → J → Bool
  | .null, .null => true
  | .bool a, .bool b => a == b
  | .num a, .num b => a == b
  | .str a, .str b => a == b
  | .arr xs, .arr ys => jeqList xs ys
  | .obj fs, .obj gs => subObj fs gs && keysIncluded gs fs
  | _, _ => false

/-- Python `==` on lists: elementwise, same length. -/
def jeqList : JList → JList → Bool
  | .nil, .nil => true
  | .cons x xs, .cons y ys => jeq x y && jeqList xs ys
  | .nil, .cons _ _ => false
  | .cons _ _, .nil => false

/-- Every entry of the first dict has an equal value under the same key in
the second dict. -/
def subObj : Fields → Fields → Bool
  | .nil, _ => true
  | .cons k v rest, gs =>
    (match lookupF k gs with
     | some w => jeq v w
     | none => false) && subObj rest gs

end

/-- The keys at this dict level are pairwise distinct. -/
def nodupKeysF : Fields → Bool
  | .nil => true
  | .cons k _ rest => !hasKeyF k rest && nodupKeysF rest

mutual

/-- No dict anywhere inside the value has duplicate keys. -/
def nodupDeepJ : J → Bool
  | .null => true
  | .bool _ => true
  | .num _ => true
  | .str _ => true
  | .arr xs => nodupDeepL xs
  | .obj fs => nodupKeysF fs && nodupDeepF fs

def nodupDeepL : JList → Bool
  | .nil => true
  | .cons x xs => nodupDeepJ x && nodupDeepL xs

def nodupDeepF : Fields → Bool
  | .nil => true
  | .cons _ v rest => nodupDeepJ v && nodupDeepF rest

end

mutual

/-- The key-superset condition of the round-trip claim: every key of
`base` occurs in `d`, and recursively so wherever both sides hold dicts. -/
def supFields : Fields → Fields → Bool
  | .nil, _ => true
  | .cons k v rest, ds =>
    (match lookupF k ds with
     | none => false
     | some w => supVal v w) && supFields rest ds

/-- Value-level side condition of `supFields`: recurse only where both the
default and the document hold dicts. -/
def supVal : J → J → Bool
  | .obj bs, .obj dsub => supFields bs dsub
  | .obj _, _ => true
  | .null, _ => true
  | .bool _, _ => true
  | .num _, _ => true
  | .str _, _ => true
  | .arr _, _ => true

end

/-- The value `_deep_merge` stores under a key present in the override:
the recursive merge when both sides hold dicts, the override value
otherwise. -/
def mergedVal (w : Option J) (v : J) : J :=
  match w, v with
  | some (.obj bw), .obj ov => .obj (mergeFields bw ov)
  | _, _ => v

/-- Value membership in a JSON list. -/
def MemL (v : J) : JList → Prop
  | .nil => False
  | .cons x xs => v = x ∨ MemL v xs

/-! ## Weather condition evaluation (`scheduler.py`)

`_eval_weather_condition` (scheduler.py lines 1102-1138).  The condition
fields are passed already extracted (`condition.get("field", "temperature")`,
`condition.get("op", "<")`, `condition.get("value", 0)`); the weather body
is the decoded JSON of `GET /api/weather`.  JSON numbers are modelled as
integers (the comparisons below agree with Python float comparison on
exactly representable values).
-/

/-- `.get(k)` on a dict with default `None` (missing key gives `none`). -/
def jget (o : J) (k : String) : Option J :=
  match o with
  | .obj fs => lookupF k fs
  | _ => none

/-- The `field_map` dict of `_eval_weather_condition` with its
`.get(field, field)` fallback. -/
def weatherFieldMap (field : String) : String :=
  if field = "temperature" then "temperature"
  else if field = "windSpeed" then "windSpeed"
  else if field = "humidity" then "humidity"
  else if field = "temp" then "temperature"
  else if field = "wind" then "windSpeed"
  else field

/-- `_eval_weather_condition` from `scheduler.py`: read
`weather_data.get("current", {})`, map the field name, fetch the value
(`None` and non-numeric values fall into the `return False` / exception
paths), and compare with the operator. -/
def eval_weather_condition (field op : String) (value : Int) (weather_data : Fields) : Bool :=
  let current : J := (lookupF "current" weather_data).getD (.obj .nil)
  let actual_field := weatherFieldMap field
  match jget current actual_field with
  | none => false
  | some .null => false
  | some (.num a) =>
    if op = "<" then decide (a < value)
    else if op = ">" then decide (a > value)
    else if op = "<=" then decide (a ≤ value)
    else if op = ">=" then decide (a ≥ value)
    else if op = "==" then decide (a = value)
    else false
  | some _ => false

/-! ## RPC transport state (`signal_handler.py`)

The `SignalHandler` mutable state touched by `disconnect` (lines 89-117)
and by the tail of `_send_request` (lines 179-237) once its waiter event
has been set.  A response dict is a JSON object (`Fields`).
-/

/-- The transport state: connection flags, the stop event, the ids of the
registered pending waiters and the id-keyed response store. -/
structure HandlerState where
  connected : Bool
  sock_open : Bool
  stopped : Bool
  pending : List Nat
  responses : List (Nat × Fields)
  deriving DecidableEq

/-- `disconnect()` from `signal_handler.py`: set the stop event, drop the
connected flag, close the socket, set every pending waiter event and clear
the pending and response maps. -/
def disconnect (s : HandlerState) : HandlerState :=
  { connected := false
    sock_open := false
    stopped := true
    pending := []
    responses := [] }

/-- The ids of the waiters released (their events set) by `disconnect`:
all of them. -/
def wokenWaiters (s : HandlerState) : List Nat :=
  s.pending

/-- How a `request` call terminates, mirroring the code paths of
`_send_request`: a normal return of the response dict, a
`RuntimeError` for an `error` member, a `TimeoutError`, or a
`ConnectionError`. -/
inductive RequestOutcome where
  | result (resp : Fields) : RequestOutcome
  | rpcError (resp : Fields) : RequestOutcome
  | rpcTimeout : RequestOutcome
  | connectionError : RequestOutcome
  deriving DecidableEq

/-- Integer-keyed association lookup (the `self._responses` dict). -/
def lookupNat (k : Nat) : List (Nat × Fields) → Option Fields
  | [] => none
  | (k2, v) :: rest => if k = k2 then some v else lookupNat k rest

/-- The tail of `_send_request` after `event.wait` returns `True`:
`response = self._responses.pop(req_id, {})`, then raise on an `error`
member, else return the response. -/
def resumeWaiter (responses : List (Nat × Fields)) (req_id : Nat) : RequestOutcome :=
  let response := (lookupNat req_id responses).getD .nil
  if hasKeyF "error" response then .rpcError response else .result response

/-- A request blocked in `event.wait` when `disconnect()` runs: the event
is set by `disconnect`, so the waiter resumes against the state
`disconnect` left behind. -/
def requestReleasedByDisconnect (s : HandlerState) (req_id : Nat) :
    HandlerState × RequestOutcome :=
  let s2 := disconnect s
  (s2, resumeWaiter s2.responses req_id)

/-! ## Python string primitives

`str.lower`, `str.strip`, `str.split` and friends on ASCII text, used by
`choom_client.py`, `bridge.py` and the message parser.  Strings are
manipulated as `List Char` where the parser logic needs it.
-/

/-- ASCII `str.lower` on one character. -/
def pyLowerChar (c : Char) : Char :=
  if 'A' ≤ c ∧ c ≤ 'Z' then Char.ofNat (c.toNat + 32) else c

/-- ASCII `str.lower` on a character list. -/
def pyLowerL (xs : List Char) : List Char :=
  xs.map pyLowerChar

/-- ASCII `str.lower` on a string. -/
def pyLowerS (s : String) : String :=
  String.mk (pyLowerL s.data)

/-- The characters `str.strip()` removes by default. -/
def pyIsSpace (c : Char) : Bool :=
  c == ' ' || c == '\t' || c == '\n' || c == '\r' || c == '\x0b' || c == '\x0c'

/-- `str.lstrip(pred)`. -/
def lstripP (p : Char → Bool) (xs : List Char) : List Char :=
  xs.dropWhile p

/-- `str.rstrip(pred)`. -/
def rstripP (p : Char → Bool) (xs : List Char) : List Char :=
  (xs.reverse.dropWhile p).reverse

/-- `str.strip(pred)` (both sides). -/
def stripP (p : Char → Bool) (xs : List Char) : List Char :=
  lstripP p (rstripP p xs)

/-- `str.strip()` (whitespace). -/
def pyStrip (xs : List Char) : List Char :=
  stripP pyIsSpace xs

/-- Membership in the separator-punctuation set `",:.!?"`. -/
def isSepPunct (c : Char) : Bool :=
  c == ',' || c == ':' || c == '.' || c == '!' || c == '?'

/-- `s.split(None, 1)`: skip leading whitespace, take the first
whitespace-free word, then the remainder with its leading whitespace
removed; empty parts are not produced. -/
def pySplitNoneOnce (xs : List Char) : List (List Char) :=
  let ys := xs.dropWhile pyIsSpace
  match ys with
  | [] => []
  | _ =>
    let w := ys.takeWhile (fun c => !pyIsSpace c)
    let rest := (ys.dropWhile (fun c => !pyIsSpace c)).dropWhile pyIsSpace
    if rest.isEmpty then [w] else [w, rest]

/-- Accumulator pass of `s.split()`. -/
def splitWsAux : List Char → List Char → List (List Char)
  | [], acc => if acc.isEmpty then [] else [acc.reverse]
  | c :: cs, acc =>
    if pyIsSpace c then
      if acc.isEmpty then splitWsAux cs [] else acc.reverse :: splitWsAux cs []
    else splitWsAux cs (c :: acc)

/-- `s.split()`: whitespace split with no empty parts. -/
def pySplitWs (xs : List Char) : List (List Char) :=
  splitWsAux xs []

/-- `" ".join(parts)`. -/
def joinSpace : List (List Char) → List Char
  | [] => []
  | w :: rest =>
    match rest with
    | [] => w
    | _ => w ++ ' ' :: joinSpace rest

/-! ## User-activity map and list aliases (`choom_client.py`, `bridge.py`) -/

/-- Lookup in a string-keyed map of wall-clock instants
(`self._last_user_activity`). -/
def lookupAct (k : String) : List (String × Int) → Option Int
  | [] => none
  | (k2, v) :: rest => if k = k2 then some v else lookupAct k rest

/-- Python dict assignment `m[k] = t`: update the existing binding in
place, else append. -/
def setAct : List (String × Int) → String → Int → List (String × Int)
  | [], k, t => [(k, t)]
  | (k2, v) :: rest, k, t =>
    if k = k2 then (k2, t) :: rest else (k2, v) :: setAct rest k t

/-- `ChoomClient.record_user_activity` from `choom_client.py`:
`self._last_user_activity[choom_name.lower()] = time.time()`; `now` is the
value `time.time()` returned at the call. -/
def record_user_activity (m : List (String × Int)) (choom_name : String) (now : Int) :
    List (String × Int) :=
  setAct m (pyLowerS choom_name) now

/-- `ChoomClient.is_user_active` from `choom_client.py`:
`(time.time() - self._last_user_activity.get(choom_name.lower(), 0)) < window_seconds`. -/
def is_user_active (m : List (String × Int)) (choom_name : String)
    (window_seconds : Int) (now : Int) : Bool :=
  let last := (lookupAct (pyLowerS choom_name) m).getD 0
  decide (now - last < window_seconds)

/-- `ChoomClient.send_message` (choom_client.py lines 152-332) never reads
or writes `self._last_user_activity`; its effect on the activity map is
the identity. -/
def send_message_activity_effect (m : List (String × Int)) : List (String × Int) :=
  m

/-- The activity-relevant fragment of `SignalBridge._process_message`
(bridge.py lines 236-238): `record_user_activity(choom_name)` at instant
`t_record`, then `send_message(choom_name, ...)`. -/
def processMessageActivity (m : List (String × Int)) (choom_name : String)
    (t_record : Int) : List (String × Int) :=
  send_message_activity_effect (record_user_activity m choom_name t_record)

/-- String-valued association lookup. -/
def lookupStr (k : String) : List (String × String) → Option String
  | [] => none
  | (k2, v) :: rest => if k = k2 then some v else lookupStr k rest

/-- `SignalBridge.LIST_ALIASES` from `bridge.py`. -/
def LIST_ALIASES : List (String × String) := [
  ("grocery", "groceries"),
  ("groceries", "groceries"),
  ("shopping", "groceries"),
  ("hardware", "hardware store"),
  ("todo", "to do")]

/-- `SignalBridge._resolve_list_name` from `bridge.py`:
`self.LIST_ALIASES.get(name.lower(), name)`. -/
def resolve_list_name (name : String) : String :=
  (lookupStr (pyLowerS name) LIST_ALIASES).getD name

/-! ## System health check (`scheduler.py`)

`_system_health_check` (scheduler.py lines 1506-1548).  The decoded health
body is a dict with an optional `error` member and a `services` dict whose
values may or may not be dicts (`isinstance(service_info, dict)`).
-/

/-- One value of the `services` dict: a dict of string fields, or any
non-dict value (skipped by the `isinstance` check). -/
inductive ServiceInfo where
  | dict (fields : List (String × String)) : ServiceInfo
  | nondict : ServiceInfo
  deriving DecidableEq

/-- The decoded body of `choom.check_health()`. -/
structure HealthReport where
  error : Option String
  services : List (String × ServiceInfo)
  deriving DecidableEq

/-- `service_info.get('status', 'unknown')`. -/
def serviceStatus (info : List (String × String)) : String :=
  (lookupStr "status" info).getD "unknown"

/-- The `issues` list built by `_system_health_check`: one
`"- <name>: <status>"` line per dict-shaped service whose status is not
`connected`, in service order. -/
def issueLines (services : List (String × ServiceInfo)) : List String :=
  services.filterMap fun p =>
    match p.2 with
    | .dict fs =>
      let status := serviceStatus fs
      if status ≠ "connected" then some ("- " ++ p.1 ++ ": " ++ status) else none
    | .nondict => none

/-- `_system_health_check` from `scheduler.py`: the list of outbound
owner messages the job sends, in order, given the `is_task_enabled`
gate, the `is_quiet_period()` value and the health body. -/
def system_health_check (enabled quiet : Bool) (health : HealthReport) : List String :=
  if !enabled then []
  else
    match health.error with
    | some e => if !quiet then ["System Alert: Health check failed - " ++ e] else []
    | none =>
      let issues := issueLines health.services
      if issues.isEmpty then []
      else if !quiet then
        ["System Alert: Service issues detected\n\n" ++ String.intercalate "\n" issues]
      else []

/-! ## Intent resolver (`signal_handler.py`)

`MessageParser.CHOOM_NAME_VARIANTS`, `SKIP_WORDS`, `_match_choom_name` and
`extract_choom_name` (signal_handler.py lines 415-506).
-/

/-- `MessageParser.CHOOM_NAME_VARIANTS` from `signal_handler.py`. -/
def CHOOM_NAME_VARIANTS : List (String × String) := [
  ("genesis", "Genesis"),
  ("lissa", "Lissa"),
  ("aloy", "Aloy"),
  ("anya", "Anya"),
  ("optic", "Optic"),
  ("lisa", "Lissa"),
  ("lysa", "Lissa"),
  ("lesa", "Lissa"),
  ("leesa", "Lissa"),
  ("elissa", "Lissa"),
  ("alyssa", "Lissa"),
  ("alloy", "Aloy"),
  ("eloy", "Aloy"),
  ("aloi", "Aloy"),
  ("ahoy", "Aloy"),
  ("ania", "Anya"),
  ("oniya", "Anya"),
  ("optek", "Optic"),
  ("optik", "Optic"),
  ("optics", "Optic")]

/-- `MessageParser.SKIP_WORDS` from `signal_handler.py`. -/
def SKIP_WORDS : List String := [
  "hey", "hi", "hello", "yo", "oh", "ok", "okay", "so",
  "well", "um", "uh", "like", "please", "dear", "hiya"]

/-- `MessageParser._match_choom_name` from `signal_handler.py`:
`name.lower().strip().rstrip(",:.!?")` looked up in the variant table. -/
def matchChoomName (name : List Char) : Option String :=
  let normalized := rstripP isSepPunct (pyStrip (pyLowerL name))
  (lookupStr (String.mk normalized) CHOOM_NAME_VARIANTS)

/-- One iteration of pattern 1 of `extract_choom_name` for one separator:
when the separator occurs, split once at it, match the stripped first part
against the variant table, and on a match return the canonical name with
the stripped remainder. -/
def tryPat1Sep (sep : Char) (m : List Char) : Option (String × List Char) :=
  if m.contains sep then
    match matchChoomName (pyStrip (m.takeWhile (fun c => !(c == sep)))) with
    | some n => some (n, pyStrip ((m.dropWhile (fun c => !(c == sep))).tail))
    | none => none
  else none

/-- Pattern 1 of `extract_choom_name`: the separators `":"` then `","`. -/
def tryPat1 (m : List Char) : Option (String × List Char) :=
  match tryPat1Sep ':' m with
  | some r => some r
  | none => tryPat1Sep ',' m

/-- Pattern 2 of `extract_choom_name`: an `"@"` sigil followed by a
variant-table token; the remainder of `message[1:].split(None, 1)` is the
cleaned message (`""` when absent). -/
def tryPat2 (m : List Char) : Option (String × List Char) :=
  match m with
  | '@' :: ms =>
    (match pySplitNoneOnce ms with
     | [] => none
     | w :: rest =>
       match matchChoomName w with
       | some n =>
         some (n, match rest with
                  | [] => []
                  | r :: _ => r)
       | none => none)
  | _ => none

/-- Pattern 3 of `extract_choom_name`: scan up to five words; punctuation
is stripped from each word; a variant match returns the canonical name and
the stripped join of the remaining words; a non-skip miss stops the scan. -/
def scanWords : Nat → List (List Char) → Option (String × List Char)
  | _, [] => none
  | 0, _ :: _ => none
  | fuel + 1, w :: rest =>
    let clean := stripP isSepPunct w
    match matchChoomName clean with
    | some n => some (n, pyStrip (joinSpace rest))
    | none =>
      if SKIP_WORDS.contains (String.mk (pyLowerL clean)) then scanWords fuel rest
      else none

/-- `MessageParser.extract_choom_name` from `signal_handler.py`: strip the
message, then try pattern 1 (separators), pattern 2 (`"@"`), pattern 3
(word scan), and fall back to no extraction with the stripped message. -/
def extract_choom_name (message : List Char) : Option String × List Char :=
  let m := pyStrip message
  match tryPat1 m with
  | some (n, t) => (some n, t)
  | none =>
    match tryPat2 m with
    | some (n, t) => (some n, t)
    | none =>
      match scanWords 5 (pySplitWs m) with
      | some (n, t) => (some n, t)
      | none => (none, m)

/-! ## Envelope parser (`signal_handler.py`)

`MessageParser.parse_envelope` (signal_handler.py lines 352-413).
-/

/-- One parsed attachment record (`att_info` in the source). -/
structure AttachmentInfo where
  id : J
  content_type : J
  filename : J
  size : J
  deriving DecidableEq

/-- The parsed quote record. -/
structure QuoteInfo where
  id : J
  author : J
  text : J
  deriving DecidableEq

/-- The normalized intake record `parse_envelope` returns. -/
structure ParsedMessage where
  source : J
  timestamp : J
  message : J
  attachments : List AttachmentInfo
  is_voice_note : Bool
  quote : Option QuoteInfo
  deriving DecidableEq

/-- List-prefix test on character lists. -/
def startsWithPat : List Char → List Char → Bool
  | [], _ => true
  | _ :: _, [] => false
  | p :: ps, c :: cs => p == c && startsWithPat ps cs

/-- Python `pat in s` substring containment on character lists. -/
def containsPat (pat : List Char) (xs : List Char) : Bool :=
  startsWithPat pat xs ||
    match xs with
    | [] => false
    | _ :: t => containsPat pat t

/-- `"audio" in att_info["content_type"]` (a `TypeError` on a non-string
content type is outside the well-formed envelopes considered below). -/
def audioInContentType (ct : J) : Bool :=
  match ct with
  | .str s => containsPat "audio".data s.data
  | _ => false

/-- Conversion of a JSON array to a Lean list. -/
def jlistToList : JList → List J
  | .nil => []
  | .cons x xs => x :: jlistToList xs

/-- The attachment list `data.get("attachments", [])` as a Lean list
(a present non-array value raises in Python and is outside the
well-formed envelopes considered below). -/
def attachmentItems (data : J) : List J :=
  match jgetD data "attachments" (.arr .nil) with
  | .arr xs => jlistToList xs
  | _ => []

/-- One element of the attachment loop of `parse_envelope`. -/
def parseAttachment (a : J) : AttachmentInfo :=
  { id := jgetD a "id" J.null
    content_type := jgetD a "contentType" (.str "")
    filename := jgetD a "filename" J.null
    size := jgetD a "size" (.num 0) }

/-- The voice-note test of the attachment loop:
`attachment.get("voiceNote")` truthy, or `"audio"` inside the content
type. -/
def attachmentIsVoice (a : J) : Bool :=
  pyTruthy (jgetD a "voiceNote" J.null) || audioInContentType (jgetD a "contentType" (.str ""))

/-- The message part `parse_envelope` selects: the `dataMessage`, else the
`syncMessage.sentMessage`, else nothing. -/
def dataPartOf (env : J) : Option J :=
  if jHasKey env "dataMessage" then some (jgetD env "dataMessage" J.null)
  else if jHasKey env "syncMessage" then
    (let sync := jgetD env "syncMessage" J.null
     if jHasKey sync "sentMessage" then some (jgetD sync "sentMessage" J.null) else none)
  else none

/-- `MessageParser.parse_envelope` from `signal_handler.py`. -/
def parse_envelope (env : J) : Option ParsedMessage :=
  let source := pyOr (jgetD env "source" J.null) (jgetD env "sourceNumber" J.null)
  match dataPartOf env with
  | none => none
  | some data =>
    if !pyTruthy data || !pyTruthy source then none
    else
      let message_text := jgetD data "message" (.str "")
      if !pyTruthy message_text && !pyTruthy (jgetD data "attachments" J.null) then none
      else
        let items := attachmentItems data
        some
          { source := source
            timestamp := jgetD data "timestamp" (.num 0)
            message := message_text
            attachments := items.map parseAttachment
            is_voice_note := items.any attachmentIsVoice
            quote :=
              if jHasKey data "quote" then
                let q := jgetD data "quote" J.null
                some
                  { id := jgetD q "id" J.null
                    author := jgetD q "author" J.null
                    text := jgetD q "text" J.null }
              else none }

/-- All elements of a JSON array satisfy a predicate. -/
def jlistAll (p : J → Bool) : JList → Bool
  | .nil => true
  | .cons x xs => p x && jlistAll p xs

/-- A dict-shaped JSON value. -/
def isObj (v : J) : Bool :=
  match v with
  | .obj _ => true
  | _ => false

/-- The attachment shape on which the Python loop body is exception-free:
a dict whose content type, when present, is a string. -/
def attachmentWF (a : J) : Bool :=
  isObj a &&
    (match jgetD a "contentType" (.str "") with
     | .str _ => true
     | _ => false)

/-- Envelopes on which `parse_envelope` runs without raising: the
envelope and a present `syncMessage` are dicts; a selected truthy message
part is a dict whose `attachments` member, when present, is an array of
well-formed attachments, and whose `quote` member, when present, is a
dict. -/
def envWellFormed (env : J) : Bool :=
  isObj env &&
  (!jHasKey env "syncMessage" || isObj (jgetD env "syncMessage" J.null)) &&
  (match dataPartOf env with
   | none => true
   | some data =>
     !pyTruthy data ||
       (isObj data &&
        (!jHasKey data "attachments" ||
          (match jgetD data "attachments" J.null with
           | .arr xs => jlistAll attachmentWF xs
           | _ => false)) &&
        (!jHasKey data "quote" || isObj (jgetD data "quote" J.null))))

/-- The condition under which `parse_envelope` returns no intake, stated
on the raw envelope: no truthy source, or no message part, or a falsy
message part, or a message part with falsy text and falsy attachments. -/
def noIntakeCondition (env : J) : Bool :=
  let source := pyOr (jgetD env "source" J.null) (jgetD env "sourceNumber" J.null)
  match dataPartOf env with
  | none => true
  | some data =>
    !pyTruthy data || !pyTruthy source ||
      (!pyTruthy (jgetD data "message" (.str "")) &&
       !pyTruthy (jgetD data "attachments" J.null))

/-- Modelled from the claim wording of C4: the envelope "carries message
text or attachments or a sync-sent message" - non-empty text or a
non-empty attachment list under `dataMessage` or under
`syncMessage.sentMessage`, or the presence of `syncMessage.sentMessage`. -/
def carriesTextAttachSyncSpec (env : J) : Bool :=
  pyTruthy (jgetD (jgetD env "dataMessage" J.null) "message" (.str "")) ||
  pyTruthy (jgetD (jgetD (jgetD env "syncMessage" J.null) "sentMessage" J.null) "message" (.str "")) ||
  pyTruthy (jgetD (jgetD env "dataMessage" J.null) "attachments" J.null) ||
  pyTruthy (jgetD (jgetD (jgetD env "syncMessage" J.null) "sentMessage" J.null) "attachments" J.null) ||
  jHasKey (jgetD env "syncMessage" J.null) "sentMessage"

-- ===================== THEOREMS =====================

/-! ### Association-list lemmas -/

theorem fieldsInductionOn {motive : Fields → Prop} (fs : Fields) (nil : motive .nil)
    (cons : ∀ k v tl, motive tl → motive (.cons k v tl)) : motive fs :=
  match fs with
  | .nil => nil
  | .cons k v tl => cons k v tl (fieldsInductionOn tl nil cons)

theorem jlistInductionOn {motive : JList → Prop} (xs : JList) (nil : motive .nil)
    (cons : ∀ hd tl, motive tl → motive (.cons hd tl)) : motive xs :=
  match xs with
  | .nil => nil
  | .cons hd tl => cons hd tl (jlistInductionOn tl nil cons)

theorem lookupF_cons (q k : String) (v : J) (rest : Fields) :
    lookupF q (.cons k v rest) = if q = k then some v else lookupF q rest := rfl

theorem hasKeyF_cons (q k : String) (v : J) (rest : Fields) :
    hasKeyF q (.cons k v rest) = (decide (q = k) || hasKeyF q rest) := by
  simp only [hasKeyF, lookupF_cons]
  split <;> simp_all

theorem lookupF_updateF_ne {q k : String} (v : J) (fs : Fields) (h : q ≠ k) :
    lookupF q (updateF k v fs) = lookupF q fs := by
  induction fs using fieldsInductionOn with
  | nil => rfl
  | cons k2 w rest ih =>
    simp only [updateF]
    split
    · next hk =>
      subst hk
      simp only [lookupF_cons, if_neg h]
    · simp only [lookupF_cons, ih]

theorem lookupF_updateF_self (k : String) (v : J) (fs : Fields)
    (h : hasKeyF k fs = true) :
    lookupF k (updateF k v fs) = some v := by
  induction fs using fieldsInductionOn with
  | nil => simp [hasKeyF, lookupF] at h
  | cons k2 w rest ih =>
    simp only [updateF]
    split
    · next hk => subst hk; simp [lookupF_cons]
    · next hk =>
      have hne : k ≠ k2 := hk
      simp only [lookupF_cons, if_neg hne]
      apply ih
      simpa [hasKeyF_cons, hne] using h

theorem hasKeyF_updateF (q k : String) (v : J) (fs : Fields) :
    hasKeyF q (updateF k v fs) = hasKeyF q fs := by
  induction fs using fieldsInductionOn with
  | nil => rfl
  | cons k2 w rest ih =>
    simp only [updateF]
    split
    · next hk => subst hk; simp [hasKeyF_cons]
    · simp [hasKeyF_cons, ih]

theorem lookupF_appendF (q k : String) (v : J) (fs : Fields) :
    lookupF q (appendF fs k v) =
      match lookupF q fs with
      | some w => some w
      | none => if q = k then some v else none := by
  induction fs using fieldsInductionOn with
  | nil => rfl
  | cons k2 w rest ih =>
    simp only [appendF, lookupF_cons]
    split
    · rfl
    · exact ih

theorem hasKeyF_appendF (q k : String) (v : J) (fs : Fields) :
    hasKeyF q (appendF fs k v) = (hasKeyF q fs || decide (q = k)) := by
  simp only [hasKeyF, lookupF_appendF]
  rcases hq : lookupF q fs with _ | w
  · by_cases h : q = k <;> simp [h]
  · simp

theorem nodupKeysF_updateF (k : String) (v : J) (fs : Fields) :
    nodupKeysF (updateF k v fs) = nodupKeysF fs := by
  induction fs using fieldsInductionOn with
  | nil => rfl
  | cons k2 w rest ih =>
    simp only [updateF]
    split
    · next hk => subst hk; simp [nodupKeysF]
    · simp [nodupKeysF, hasKeyF_updateF, ih]

theorem nodupKeysF_appendF (k : String) (v : J) (fs : Fields)
    (h : hasKeyF k fs = false) :
    nodupKeysF (appendF fs k v) = nodupKeysF fs := by
  induction fs using fieldsInductionOn with
  | nil => simp [appendF, nodupKeysF, hasKeyF, lookupF]
  | cons k2 w rest ih =>
    simp only [hasKeyF_cons, Bool.or_eq_false_iff, decide_eq_false_iff_not] at h
    simp only [appendF, nodupKeysF, hasKeyF_appendF, ih h.2]
    have hne : ¬(k2 = k) := fun hkk => h.1 hkk.symm
    simp [hne]

theorem mergedVal_none (v : J) : mergedVal none v = v := by
  cases v <;> rfl

theorem mergedVal_not_both (w v : J)
    (hno : ∀ (bw ov : Fields), w = J.obj bw → v = J.obj ov → False) :
    mergedVal (some w) v = v := by
  cases w <;> cases v <;> try rfl
  exact (hno _ _ rfl rfl).elim

theorem lookupF_applyKey_self (bs : Fields) (k : String) (v : J) :
    lookupF k (applyKey bs k v) = some (mergedVal (lookupF k bs) v) := by
  rw [applyKey.eq_def]
  split
  · next bw ov hb =>
    have hk : hasKeyF k bs = true := by simp [hasKeyF, hb]
    rw [lookupF_updateF_self _ _ _ hk, hb]
    rfl
  · next w hb hno =>
    have hk : hasKeyF k bs = true := by simp [hasKeyF, hb]
    rw [lookupF_updateF_self _ _ _ hk, hb, mergedVal_not_both _ _ hno]
  · next hb =>
    rw [hb, mergedVal_none, lookupF_appendF, hb]
    simp

theorem lookupF_applyKey_ne (bs : Fields) {q k : String} (v : J) (h : q ≠ k) :
    lookupF q (applyKey bs k v) = lookupF q bs := by
  rw [applyKey.eq_def]
  split
  · exact lookupF_updateF_ne _ _ h
  · exact lookupF_updateF_ne _ _ h
  · rw [lookupF_appendF]
    rcases hq : lookupF q bs with _ | u <;> simp [h]

theorem hasKeyF_applyKey (bs : Fields) (q k : String) (v : J) :
    hasKeyF q (applyKey bs k v) = (hasKeyF q bs || decide (q = k)) := by
  by_cases h : q = k
  · subst h
    simp [hasKeyF, lookupF_applyKey_self]
  · simp [hasKeyF, lookupF_applyKey_ne _ _ h, h]

theorem nodupKeysF_applyKey (bs : Fields) (k : String) (v : J)
    (h : nodupKeysF bs = true) :
    nodupKeysF (applyKey bs k v) = true := by
  rw [applyKey.eq_def]
  split
  · rw [nodupKeysF_updateF]; exact h
  · rw [nodupKeysF_updateF]; exact h
  · next hb =>
    have hk : hasKeyF k bs = false := by simp [hasKeyF, hb]
    rw [nodupKeysF_appendF _ _ _ hk]
    exact h

/-! ### Lemmas about `_deep_merge` -/

theorem lookupF_mergeFields (ds : Fields) (hnd : nodupKeysF ds = true) :
    ∀ (bs : Fields) (q : String),
      lookupF q (mergeFields bs ds) =
        match lookupF q ds with
        | some dv => some (mergedVal (lookupF q bs) dv)
        | none => lookupF q bs := by
  induction ds using fieldsInductionOn with
  | nil => intro bs q; rfl
  | cons k v rest ih =>
    intro bs q
    rw [nodupKeysF] at hnd
    simp only [Bool.and_eq_true, Bool.not_eq_true'] at hnd
    obtain ⟨hnk, hnr⟩ := hnd
    rw [mergeFields, ih hnr]
    by_cases hq : q = k
    · subst hq
      have hmiss : lookupF q rest = none := by
        rcases hl : lookupF q rest with _ | w
        · rfl
        · exfalso
          rw [hasKeyF, hl] at hnk
          simp at hnk
      rw [hmiss, lookupF_cons, if_pos rfl, lookupF_applyKey_self]
    · rw [lookupF_cons, if_neg hq, lookupF_applyKey_ne _ _ hq]

theorem hasKeyF_mergeFields (ds : Fields) (hnd : nodupKeysF ds = true)
    (bs : Fields) (q : String) :
    hasKeyF q (mergeFields bs ds) = (hasKeyF q bs || hasKeyF q ds) := by
  simp only [hasKeyF, lookupF_mergeFields ds hnd]
  cases lookupF q ds <;> cases lookupF q bs <;> simp

theorem nodupKeysF_mergeFields (ds : Fields) :
    ∀ bs, nodupKeysF bs = true → nodupKeysF (mergeFields bs ds) = true := by
  induction ds using fieldsInductionOn with
  | nil => intro bs h; exact h
  | cons k v rest ih =>
    intro bs h
    rw [mergeFields]
    exact ih _ (nodupKeysF_applyKey _ _ _ h)

/-! ### Lemmas about the key-superset condition -/

theorem supFields_lookup (base : Fields) :
    ∀ (d : Fields) (q : String) (bv : J),
      supFields base d = true → lookupF q base = some bv →
      ∃ dv, lookupF q d = some dv ∧ supVal bv dv = true := by
  induction base using fieldsInductionOn with
  | nil =>
    intro d q bv _ hl
    rw [lookupF] at hl
    cases hl
  | cons k v rest ih =>
    intro d q bv hs hl
    rw [supFields] at hs
    simp only [Bool.and_eq_true] at hs
    obtain ⟨h1, h2⟩ := hs
    rw [lookupF_cons] at hl
    by_cases hq : q = k
    · rw [if_pos hq] at hl
      cases hl
      subst hq
      rcases hd : lookupF q d with _ | w
      · rw [hd] at h1
        cases h1
      · rw [hd] at h1
        exact ⟨w, rfl, h1⟩
    · rw [if_neg hq] at hl
      exact ih d q bv h2 hl

theorem supFields_hasKey (base d : Fields) (q : String)
    (hs : supFields base d = true) (h : hasKeyF q base = true) :
    hasKeyF q d = true := by
  rw [hasKeyF] at h
  rcases hb : lookupF q base with _ | bv
  · rw [hb] at h
    cases h
  · obtain ⟨dv, hd, _⟩ := supFields_lookup base d q bv hs hb
    simp [hasKeyF, hd]

/-! ### Deep-nodup and size lemmas -/

theorem nodupDeepF_lookup (fs : Fields) :
    ∀ k v, nodupDeepF fs = true → lookupF k fs = some v → nodupDeepJ v = true := by
  induction fs using fieldsInductionOn with
  | nil =>
    intro k v _ h
    rw [lookupF] at h
    cases h
  | cons k2 w rest ih =>
    intro k v hd hl
    rw [nodupDeepF] at hd
    simp only [Bool.and_eq_true] at hd
    obtain ⟨h1, h2⟩ := hd
    rw [lookupF_cons] at hl
    by_cases hq : k = k2
    · rw [if_pos hq] at hl
      cases hl
      exact h1
    · rw [if_neg hq] at hl
      exact ih _ _ h2 hl

theorem sizeOf_lookupF (fs : Fields) :
    ∀ k v, lookupF k fs = some v → sizeOf v < sizeOf fs := by
  induction fs using fieldsInductionOn with
  | nil =>
    intro k v h
    rw [lookupF] at h
    cases h
  | cons k2 w rest ih =>
    intro k v h
    rw [lookupF_cons] at h
    by_cases hq : k = k2
    · rw [if_pos hq] at h
      cases h
      simp
      omega
    · rw [if_neg hq] at h
      have := ih _ _ h
      simp
      omega

/-! ### Lemmas about document equality -/

theorem subObj_of_lookup (fs : Fields) :
    ∀ gs, nodupKeysF fs = true →
      (∀ k v, lookupF k fs = some v → ∃ w, lookupF k gs = some w ∧ jeq v w = true) →
      subObj fs gs = true := by
  induction fs using fieldsInductionOn with
  | nil => intro gs _ _; rfl
  | cons k v rest ih =>
    intro gs hnd hyp
    rw [nodupKeysF] at hnd
    simp only [Bool.and_eq_true, Bool.not_eq_true'] at hnd
    obtain ⟨hnk, hnr⟩ := hnd
    rw [subObj]
    simp only [Bool.and_eq_true]
    obtain ⟨w, hw, hjw⟩ := hyp k v (by rw [lookupF_cons, if_pos rfl])
    constructor
    · rw [hw]
      exact hjw
    · apply ih gs hnr
      intro k2 v2 hl2
      apply hyp
      rw [lookupF_cons]
      by_cases hq : k2 = k
      · exfalso
        subst hq
        rw [hasKeyF, hl2] at hnk
        cases hnk
      · rw [if_neg hq]
        exact hl2

theorem keysIncluded_of (fs : Fields) :
    ∀ gs, (∀ q, hasKeyF q fs = true → hasKeyF q gs = true) →
      keysIncluded fs gs = true := by
  induction fs using fieldsInductionOn with
  | nil => intro gs _; rfl
  | cons k v rest ih =>
    intro gs hyp
    rw [keysIncluded]
    simp only [Bool.and_eq_true]
    constructor
    · exact hyp k (by simp [hasKeyF_cons])
    · apply ih
      intro q hq
      apply hyp
      rw [hasKeyF_cons, hq]
      simp


theorem sizeOf_memL (xs : JList) :
    ∀ v : J, MemL v xs → sizeOf v < sizeOf xs := by
  induction xs using jlistInductionOn with
  | nil => intro v h; cases h
  | cons hd tl ih =>
    intro v h
    rw [MemL] at h
    rcases h with h | h
    · subst h
      simp
      omega
    · have := ih v h
      simp
      omega

theorem nodupDeepL_mem (xs : JList) :
    ∀ v : J, nodupDeepL xs = true → MemL v xs → nodupDeepJ v = true := by
  induction xs using jlistInductionOn with
  | nil => intro v _ h; cases h
  | cons hd tl ih =>
    intro v hn h
    rw [nodupDeepL] at hn
    simp only [Bool.and_eq_true] at hn
    rw [MemL] at h
    rcases h with h | h
    · subst h
      exact hn.1
    · exact ih v hn.2 h

theorem jeqList_refl_of (xs : JList) :
    (∀ v : J, MemL v xs → jeq v v = true) → jeqList xs xs = true := by
  induction xs using jlistInductionOn with
  | nil => intro _; rfl
  | cons hd tl ih =>
    intro hyp
    rw [jeqList]
    simp only [Bool.and_eq_true]
    constructor
    · exact hyp hd (Or.inl rfl)
    · exact ih fun v hv => hyp v (Or.inr hv)

theorem jeq_refl_aux :
    ∀ (n : Nat) (v : J), sizeOf v ≤ n → nodupDeepJ v = true → jeq v v = true := by
  intro n
  induction n with
  | zero =>
    intro v hs
    exfalso
    cases v <;> simp at hs
  | succ n ih =>
    intro v hs hn
    cases v with
    | null => rfl
    | bool b => simp [jeq]
    | num m => simp [jeq]
    | str s => simp [jeq]
    | arr xs =>
      rw [jeq]
      rw [nodupDeepJ] at hn
      apply jeqList_refl_of
      intro v hv
      have hsz : sizeOf v < sizeOf xs := sizeOf_memL xs v hv
      have hxs : sizeOf (J.arr xs) = 1 + sizeOf xs := by simp
      exact ih v (by omega) (nodupDeepL_mem xs v hn hv)
    | obj fs =>
      rw [jeq]
      rw [nodupDeepJ] at hn
      simp only [Bool.and_eq_true] at hn
      simp only [Bool.and_eq_true]
      constructor
      · apply subObj_of_lookup fs fs hn.1
        intro k v hl
        refine ⟨v, hl, ?_⟩
        have hsz : sizeOf v < sizeOf fs := sizeOf_lookupF fs k v hl
        have hfs : sizeOf (J.obj fs) = 1 + sizeOf fs := by simp
        exact ih v (by omega) (nodupDeepF_lookup fs k v hn.2 hl)
      · exact keysIncluded_of fs fs fun q h => h

theorem jeq_refl (v : J) (h : nodupDeepJ v = true) : jeq v v = true :=
  jeq_refl_aux (sizeOf v) v le_rfl h

/-! ### The deep-merge round-trip theorem -/

theorem mergeFields_jeq_aux :
    ∀ (n : Nat) (d base : Fields), sizeOf d ≤ n →
      nodupKeysF base = true → nodupDeepF base = true →
      nodupKeysF d = true → nodupDeepF d = true →
      supFields base d = true →
      jeq (.obj (mergeFields base d)) (.obj d) = true := by
  intro n
  induction n with
  | zero =>
    intro d base hs
    exfalso
    cases d <;> simp at hs
  | succ n ih =>
    intro d base hs hkb hdb hkd hdd hsup
    rw [jeq]
    simp only [Bool.and_eq_true]
    constructor
    · apply subObj_of_lookup _ _ (nodupKeysF_mergeFields d base hkb)
      intro k v hl
      rw [lookupF_mergeFields d hkd] at hl
      rcases hd : lookupF k d with _ | dv
      · exfalso
        rw [hd] at hl
        have hl2 : lookupF k base = some v := hl
        have hb : hasKeyF k base = true := by simp [hasKeyF, hl2]
        have := supFields_hasKey base d k hsup hb
        rw [hasKeyF, hd] at this
        cases this
      · rw [hd] at hl
        have hv : v = mergedVal (lookupF k base) dv := (Option.some.inj hl).symm
        refine ⟨dv, rfl, ?_⟩
        subst hv
        have hddv : nodupDeepJ dv = true := nodupDeepF_lookup d k dv hdd hd
        rcases hb : lookupF k base with _ | bv
        · rw [mergedVal_none]
          exact jeq_refl dv hddv
        · obtain ⟨dv2, hd2, hsv⟩ := supFields_lookup base d k bv hsup hb
          rw [hd] at hd2
          cases hd2
          have hdbv : nodupDeepJ bv = true := nodupDeepF_lookup base k bv hdb hb
          rcases bv with _ | b | m | s | xs | bw
        -- non-dict base values: the merged value is the override value
          · rw [mergedVal_not_both _ _ (by intro bw ov hbad; cases hbad)]
            exact jeq_refl dv hddv
          · rw [mergedVal_not_both _ _ (by intro bw ov hbad; cases hbad)]
            exact jeq_refl dv hddv
          · rw [mergedVal_not_both _ _ (by intro bw ov hbad; cases hbad)]
            exact jeq_refl dv hddv
          · rw [mergedVal_not_both _ _ (by intro bw ov hbad; cases hbad)]
            exact jeq_refl dv hddv
          · rw [mergedVal_not_both _ _ (by intro bw ov hbad; cases hbad)]
            exact jeq_refl dv hddv
          · rcases dv with _ | b2 | m2 | s2 | xs2 | ov
            · rw [mergedVal_not_both _ _ (by intro bw2 ov2 _ hbad; cases hbad)]
              exact jeq_refl _ hddv
            · rw [mergedVal_not_both _ _ (by intro bw2 ov2 _ hbad; cases hbad)]
              exact jeq_refl _ hddv
            · rw [mergedVal_not_both _ _ (by intro bw2 ov2 _ hbad; cases hbad)]
              exact jeq_refl _ hddv
            · rw [mergedVal_not_both _ _ (by intro bw2 ov2 _ hbad; cases hbad)]
              exact jeq_refl _ hddv
            · rw [mergedVal_not_both _ _ (by intro bw2 ov2 _ hbad; cases hbad)]
              exact jeq_refl _ hddv
            · show jeq (.obj (mergeFields bw ov)) (.obj ov) = true
              rw [nodupDeepJ] at hdbv hddv
              simp only [Bool.and_eq_true] at hdbv hddv
              have hso : sizeOf (J.obj ov) < sizeOf d := sizeOf_lookupF d k _ hd
              have hov : sizeOf (J.obj ov) = 1 + sizeOf ov := by simp
              rw [supVal] at hsv
              exact ih ov bw (by omega) hdbv.1 hdbv.2 hddv.1 hddv.2 hsv
    · apply keysIncluded_of
      intro q h
      rw [hasKeyF_mergeFields d hkd]
      simp [h]

theorem mergeFields_jeq (base d : Fields)
    (hkb : nodupKeysF base = true) (hdb : nodupDeepF base = true)
    (hkd : nodupKeysF d = true) (hdd : nodupDeepF d = true)
    (hsup : supFields base d = true) :
    jeq (.obj (mergeFields base d)) (.obj d) = true :=
  mergeFields_jeq_aux (sizeOf d) d base le_rfl hkb hdb hkd hdd hsup

/-! ## Helper lemmas for the activity map and alias table -/

theorem lookupAct_setAct_self (m : List (String × Int)) (k : String) (t : Int) :
    lookupAct k (setAct m k t) = some t := by
  induction m with
  | nil => simp [setAct, lookupAct]
  | cons p rest ih =>
    obtain ⟨k2, v⟩ := p
    by_cases h : k = k2
    · simp [setAct, h, lookupAct]
    · simp [setAct, h, lookupAct, ih]

theorem lookupStr_mem_values (l : List (String × String)) (k t : String) :
    lookupStr k l = some t → t ∈ l.map Prod.snd := by
  induction l with
  | nil => intro h; cases h
  | cons p rest ih =>
    obtain ⟨k2, v⟩ := p
    intro h
    rw [lookupStr] at h
    by_cases hk : k = k2
    · rw [if_pos hk] at h
      cases h
      simp
    · rw [if_neg hk] at h
      simp [ih h]

/-! ## Claim theorems -/

/-- C1 (code bug): `_eval_weather_condition` reads
`weather_data.get("current", ...)`, but the weather endpoint returns a
body of shape `weather: ...` - the shape every other consumer in
`scheduler.py` reads via `weather_data.get("weather", ...)`.  On the
documented body with temperature 38 and the condition
`temperature < 40`, the condition evaluates to `false` even though
`38 < 40` holds. -/
theorem weather_condition_false_on_documented_shape :
    eval_weather_condition "temperature" "<" 40 (fieldsOfList
      [("weather", .obj (fieldsOfList
        [("temperature", .num 38), ("description", .str "cloudy"),
         ("windSpeed", .num 5), ("humidity", .num 80),
         ("feelsLike", .num 35), ("location", .str "home")]))]) = false ∧
    ((38 : Int) < 40) := by
  constructor
  · rfl
  · decide

/-- C2 (counterexample): a waiter registered under id 7 and still blocked
when `disconnect()` runs is woken, finds the response store cleared, pops
the empty-dict default and returns it: the `request` call terminates with
an ordinary empty result, not with a transport-closed error. -/
theorem disconnect_released_waiter_gets_empty_result :
    (requestReleasedByDisconnect ⟨true, true, false, [7], []⟩ 7).2 =
        RequestOutcome.result Fields.nil ∧
    ∀ resp, (requestReleasedByDisconnect ⟨true, true, false, [7], []⟩ 7).2 ≠
        RequestOutcome.rpcError resp := by
  constructor
  · rfl
  · intro resp h
    cases h

/-- C2 (amended): `disconnect()` sets the stop flag, closes the socket,
clears the connected flag and releases every pending waiter, but a
released blocked `request` call returns an ordinary empty result dict
rather than terminating with a transport-closed error. -/
theorem disconnect_releases_pending_waiters (s : HandlerState) (req_id : Nat) :
    (disconnect s).stopped = true ∧
    (disconnect s).sock_open = false ∧
    (disconnect s).connected = false ∧
    (disconnect s).pending = [] ∧
    (requestReleasedByDisconnect s req_id).2 = RequestOutcome.result Fields.nil :=
  ⟨rfl, rfl, rfl, rfl, rfl⟩

/-- C3 (counterexample): `_process_message` records the user activity
*before* calling `send_message`.  With the record made at instant 0 and
the wall clock at 1 immediately before the `send_message` call, the
stored timestamp 0 is smaller than the pre-call instant 1, violating the
claimed relation `timestamp is at least the pre-call time`. -/
theorem activity_timestamp_counterexample :
    lookupAct (pyLowerS "Lissa") (processMessageActivity [] "Lissa" 0) = some 0 ∧
    ((0 : Int) ≤ 1) ∧ ¬((1 : Int) ≤ (0 : Int)) := by
  refine ⟨?_, by decide, by decide⟩
  rfl

/-- C3 (amended): after the `record_user_activity` / `send_message`
sequence of `_process_message` returns, the user-activity timestamp under
the lowercased name equals the instant of the `record_user_activity`
call, so it is at least any wall-clock instant observed at or before that
call (`send_message` itself never touches the map). -/
theorem activity_timestamp_after_send (m : List (String × Int)) (name : String)
    (t_record t_before : Int) (h : t_before ≤ t_record) :
    ∃ ts, lookupAct (pyLowerS name) (processMessageActivity m name t_record) = some ts ∧
      t_before ≤ ts := by
  refine ⟨t_record, ?_, h⟩
  unfold processMessageActivity send_message_activity_effect record_user_activity
  exact lookupAct_setAct_self m (pyLowerS name) t_record

/-- Witness for the amended C3 theorem at a concrete input. -/
theorem activity_timestamp_after_send_witness :
    ((3 : Int) ≤ 5) ∧
    ∃ ts, lookupAct (pyLowerS "Lissa") (processMessageActivity [] "Lissa" 5) = some ts ∧
      (3 : Int) ≤ ts :=
  ⟨by decide, activity_timestamp_after_send [] "Lissa" 5 3 (by decide)⟩

/-- C7: for an overnight quiet range (start minute strictly above end
minute), `is_quiet_period()` holds at a minute of the day exactly when
the minute is at or after the start or strictly before the end. -/
theorem quiet_period_overnight (start_h start_m end_h end_m m : Nat)
    (hover : end_h * 60 + end_m < start_h * 60 + start_m) (hm : m < 1440) :
    (is_quiet_period start_h start_m end_h end_m (m / 60) (m % 60) = true ↔
      (start_h * 60 + start_m ≤ m ∨ m < end_h * 60 + end_m)) := by
  have hrec : m / 60 * 60 + m % 60 = m := by omega
  unfold is_quiet_period
  rw [if_neg (by omega)]
  simp only [decide_eq_true_eq, ge_iff_le]
  omega

/-- Witness for the C7 theorem: 23:00 lies inside the overnight range
21:00 to 06:00. -/
theorem quiet_period_overnight_witness :
    (6 * 60 + 0 < 21 * 60 + 0) ∧ (1380 < 1440) ∧
    (is_quiet_period 21 0 6 0 (1380 / 60) (1380 % 60) = true ↔
      (21 * 60 + 0 ≤ 1380 ∨ 1380 < 6 * 60 + 0)) :=
  ⟨by decide, by decide, quiet_period_overnight 21 0 6 0 1380 (by decide) (by decide)⟩

/-- C9: the user-activity map is case-insensitive at its interface:
immediately after recording activity for name `n`, `is_user_active` holds
for any spelling `m` with the same lowercase form and any positive
window, queried at the same instant. -/
theorem user_activity_case_insensitive (act : List (String × Int)) (m n : String)
    (now w : Int) (hcase : pyLowerS m = pyLowerS n) (hw : 0 < w) :
    is_user_active (record_user_activity act n now) m w now = true := by
  unfold is_user_active record_user_activity
  rw [hcase, lookupAct_setAct_self]
  simp only [Option.getD_some, decide_eq_true_eq]
  omega

/-- Witness for the C9 theorem at a concrete input. -/
theorem user_activity_case_insensitive_witness :
    pyLowerS "LISSA" = pyLowerS "lissa" ∧ ((0 : Int) < 120) ∧
    is_user_active (record_user_activity [] "lissa" 100) "LISSA" 120 100 = true :=
  ⟨by decide, by decide,
    user_activity_case_insensitive [] "LISSA" "lissa" 100 120 (by decide) (by decide)⟩

/-- C10: list-name alias resolution is idempotent, and every alias target
in the table is a fixed point of the resolution. -/
theorem resolve_list_name_idempotent :
    (∀ s : String, resolve_list_name (resolve_list_name s) = resolve_list_name s) ∧
    (LIST_ALIASES.all fun p => resolve_list_name p.2 == p.2) = true := by
  constructor
  · intro s
    rcases h : lookupStr (pyLowerS s) LIST_ALIASES with _ | t
    · have h1 : resolve_list_name s = s := by rw [resolve_list_name, h]; rfl
      rw [h1]
      exact h1
    · have h1 : resolve_list_name s = t := by rw [resolve_list_name, h]; rfl
      rw [h1]
      have hmem := lookupStr_mem_values LIST_ALIASES (pyLowerS s) t h
      fin_cases hmem <;> decide
  · decide

/-! ## C8: the system health check -/

theorem issueLines_map (statuses : List (String × String)) :
    issueLines (statuses.map fun p => (p.1, .dict [("status", p.2)])) =
      (statuses.filter fun p => p.2 ≠ "connected").map
        fun p => "- " ++ p.1 ++ ": " ++ p.2 := by
  unfold issueLines
  induction statuses with
  | nil => rfl
  | cons p rest ih =>
    obtain ⟨name, st⟩ := p
    have hs : serviceStatus [("status", st)] = st := by
      simp [serviceStatus, lookupStr]
    rw [List.map_cons, List.filterMap_cons, List.filter_cons]
    by_cases hc : st = "connected"
    · simp only [hs, hc]
      simp only [ne_eq, not_true_eq_false, if_false, decide_not]
      simpa using ih
    · simp only [hs]
      simp only [ne_eq, hc, not_false_eq_true, if_true, decide_not]
      simp only [ih]
      simp [hc]

/-- C8: when the health body reports services of the documented
`status` shape and at least one is not `connected`, the health-check job
sends nothing inside the quiet period, and outside it sends exactly one
alert whose text is the alert header, a blank line, and one
`- name: status` line per affected service in order. -/
theorem health_check_alert (quiet : Bool) (statuses : List (String × String))
    (hissue : ∃ p ∈ statuses, p.2 ≠ "connected") :
    system_health_check true quiet
        ⟨none, statuses.map fun p => (p.1, .dict [("status", p.2)])⟩ =
      (if quiet then []
       else ["System Alert: Service issues detected\n\n" ++
             String.intercalate "\n" ((statuses.filter fun p => p.2 ≠ "connected").map
               fun p => "- " ++ p.1 ++ ": " ++ p.2)]) := by
  unfold system_health_check
  simp only [Bool.not_true, Bool.false_eq_true, if_false]
  rw [issueLines_map]
  obtain ⟨p, hp, hne⟩ := hissue
  have hmem : p ∈ statuses.filter fun q => q.2 ≠ "connected" := by
    simp [List.mem_filter, hp, hne]
  have hnil : ((statuses.filter fun q => q.2 ≠ "connected").map
      fun q => "- " ++ q.1 ++ ": " ++ q.2) ≠ [] := by
    intro hcon
    rw [List.map_eq_nil_iff] at hcon
    rw [hcon] at hmem
    cases hmem
  rw [if_neg (by simpa [List.isEmpty_iff] using hnil)]
  cases quiet <;> simp

/-- Witness for the C8 theorem: two services, one disconnected, outside
the quiet period. -/
theorem health_check_alert_witness :
    (∃ p ∈ [("signal", "connected"), ("llm", "down")], p.2 ≠ "connected") ∧
    system_health_check true false
        ⟨none, [("signal", ServiceInfo.dict [("status", "connected")]),
                ("llm", ServiceInfo.dict [("status", "down")])]⟩ =
      ["System Alert: Service issues detected\n\n- llm: down"] := by
  refine ⟨by decide, ?_⟩
  have h := health_check_alert false [("signal", "connected"), ("llm", "down")]
    (by decide)
  simpa using h

/-! ## C4: the envelope parser -/

/-- C4 (counterexample): an envelope whose `dataMessage` carries the
non-empty text `"hi"` but which has no source yields no intake record,
although the claim says every envelope carrying message text yields one.
The envelope is well formed, so the Python code takes the same path. -/
theorem parse_envelope_drops_sourceless_text :
    parse_envelope (.obj (fieldsOfList
        [("dataMessage", .obj (fieldsOfList [("message", .str "hi")]))])) = none ∧
    carriesTextAttachSyncSpec (.obj (fieldsOfList
        [("dataMessage", .obj (fieldsOfList [("message", .str "hi")]))])) = true ∧
    envWellFormed (.obj (fieldsOfList
        [("dataMessage", .obj (fieldsOfList [("message", .str "hi")]))])) = true :=
  ⟨rfl, rfl, rfl⟩

/-- C4 (amended): on well-formed envelopes, `parse_envelope` returns no
intake exactly when the envelope has no truthy source, or selects no
message part (no `dataMessage` and no `syncMessage.sentMessage`), or the
selected part is falsy, or the selected part has empty text and no
attachments. -/
theorem parse_envelope_none_iff (env : J) (hwf : envWellFormed env = true) :
    (parse_envelope env = none ↔ noIntakeCondition env = true) := by
  unfold parse_envelope noIntakeCondition
  rcases hd : dataPartOf env with _ | data
  · simp
  · by_cases h1 : (!pyTruthy data
        || !pyTruthy (pyOr (jgetD env "source" J.null) (jgetD env "sourceNumber" J.null))) = true
    · simp [h1]
    · by_cases h2 : (!pyTruthy (jgetD data "message" (J.str ""))
          && !pyTruthy (jgetD data "attachments" J.null)) = true
      · simp [h1, h2]
      · simp [h1, h2]

/-- Witness for the amended C4 theorem at a concrete input. -/
theorem parse_envelope_none_iff_witness :
    envWellFormed (.obj (fieldsOfList
        [("source", .str "+15550100"),
         ("dataMessage", .obj (fieldsOfList [("message", .str "hi")]))])) = true ∧
    (parse_envelope (.obj (fieldsOfList
        [("source", .str "+15550100"),
         ("dataMessage", .obj (fieldsOfList [("message", .str "hi")]))])) = none ↔
     noIntakeCondition (.obj (fieldsOfList
        [("source", .str "+15550100"),
         ("dataMessage", .obj (fieldsOfList [("message", .str "hi")]))])) = true) :=
  ⟨by decide, parse_envelope_none_iff _ (by decide)⟩

/-! ## C6: configuration persistence round-trip -/

/-- C6: for every configuration document (a JSON dict tree without
duplicate keys) whose keys are a superset of the defaults at every
nesting level where the defaults hold a sub-dict, loading after saving
returns a document equal (as Python `==` on dicts) to the saved one. -/
theorem config_save_load_round_trip (d : Fields)
    (hkd : nodupKeysF d = true) (hdd : nodupDeepF d = true)
    (hsup : supFields DEFAULT_CONFIG d = true) :
    jeq (.obj (load_config (save_config d))) (.obj d) = true := by
  have hkb : nodupKeysF DEFAULT_CONFIG = true := by decide
  have hdb : nodupDeepF DEFAULT_CONFIG = true := by decide
  exact mergeFields_jeq DEFAULT_CONFIG d hkb hdb hkd hdd hsup

/-- Witness for the C6 theorem: the defaults themselves round-trip. -/
theorem config_save_load_round_trip_witness :
    nodupKeysF DEFAULT_CONFIG = true ∧ nodupDeepF DEFAULT_CONFIG = true ∧
    supFields DEFAULT_CONFIG DEFAULT_CONFIG = true ∧
    jeq (.obj (load_config (save_config DEFAULT_CONFIG))) (.obj DEFAULT_CONFIG) = true :=
  ⟨by decide, by decide, by decide,
    config_save_load_round_trip DEFAULT_CONFIG (by decide) (by decide) (by decide)⟩

/-! ## C5: the intent resolver

The resolver only returns *stripped* tails, and its no-extraction result
is the stripped input, so re-running it on a tail from which it extracts
nothing returns that tail unchanged.  The lemmas below establish the
stripping facts.
-/

/-- No character at the front of the list satisfies `p`. -/
def NoLeadingP (p : Char → Bool) (xs : List Char) : Prop :=
  ∀ c, xs.head? = some c → p c = false

/-- No character at the back of the list satisfies `p`. -/
def NoTrailingP (p : Char → Bool) (xs : List Char) : Prop :=
  ∀ c, xs.getLast? = some c → p c = false

theorem dropWhile_idem (p : Char → Bool) (xs : List Char) :
    (xs.dropWhile p).dropWhile p = xs.dropWhile p := by
  induction xs with
  | nil => rfl
  | cons c cs ih =>
    by_cases h : p c
    · simp [List.dropWhile_cons, h, ih]
    · simp [List.dropWhile_cons, h]

theorem dropWhile_head (p : Char → Bool) (xs : List Char) :
    NoLeadingP p (xs.dropWhile p) := by
  induction xs with
  | nil => intro c hc; cases hc
  | cons x cs ih =>
    by_cases h : p x
    · simpa [List.dropWhile_cons, h] using ih
    · intro c hc
      rw [List.dropWhile_cons, if_neg (by simp [h])] at hc
      rw [List.head?_cons] at hc
      cases hc
      simpa using h

theorem noLeading_dropWhile_eq_self (p : Char → Bool) (xs : List Char)
    (h : NoLeadingP p xs) : xs.dropWhile p = xs := by
  cases xs with
  | nil => rfl
  | cons c cs =>
    have := h c (by rw [List.head?_cons])
    rw [List.dropWhile_cons, if_neg (by simp [this])]

theorem rstripP_noTrailing (p : Char → Bool) (xs : List Char) :
    NoTrailingP p (rstripP p xs) := by
  intro c hc
  unfold rstripP at hc
  rw [List.getLast?_reverse] at hc
  exact dropWhile_head p xs.reverse c hc

theorem noTrailing_rstripP_eq_self (p : Char → Bool) (xs : List Char)
    (h : NoTrailingP p xs) : rstripP p xs = xs := by
  unfold rstripP
  have hl : NoLeadingP p xs.reverse := by
    intro c hc
    rw [List.head?_reverse] at hc
    exact h c hc
  rw [noLeading_dropWhile_eq_self p xs.reverse hl, List.reverse_reverse]

theorem noTrailing_of_suffix (p : Char → Bool) {zs ys : List Char}
    (hsuf : zs <:+ ys) (h : NoTrailingP p ys) : NoTrailingP p zs := by
  intro c hc
  obtain ⟨t, rfl⟩ := hsuf
  have hzs : zs ≠ [] := by
    intro hz
    rw [hz] at hc
    cases hc
  apply h c
  rw [List.getLast?_append_of_ne_nil t hzs]
  exact hc

theorem noTrailing_dropWhile (p q : Char → Bool) (xs : List Char)
    (h : NoTrailingP p xs) : NoTrailingP p (xs.dropWhile q) :=
  noTrailing_of_suffix p (List.dropWhile_suffix q) h

theorem stripped_of_clean (xs : List Char)
    (hl : NoLeadingP pyIsSpace xs) (ht : NoTrailingP pyIsSpace xs) :
    pyStrip xs = xs := by
  unfold pyStrip stripP lstripP
  rw [noTrailing_rstripP_eq_self _ _ ht, noLeading_dropWhile_eq_self _ _ hl]

theorem pyStrip_noTrailing (xs : List Char) :
    NoTrailingP pyIsSpace (pyStrip xs) :=
  noTrailing_dropWhile _ _ _ (rstripP_noTrailing pyIsSpace xs)

theorem pyStrip_noLeading (xs : List Char) :
    NoLeadingP pyIsSpace (pyStrip xs) :=
  dropWhile_head pyIsSpace (rstripP pyIsSpace xs)

theorem pyStrip_idem (xs : List Char) : pyStrip (pyStrip xs) = pyStrip xs :=
  stripped_of_clean _ (pyStrip_noLeading xs) (pyStrip_noTrailing xs)

theorem tryPat1Sep_tail (sep : Char) (u : List Char) (n : String) (t : List Char)
    (h : tryPat1Sep sep u = some (n, t)) : pyStrip t = t := by
  unfold tryPat1Sep at h
  split at h
  · split at h
    · cases h
      exact pyStrip_idem _
    · cases h
  · cases h

theorem tryPat1_tail (u : List Char) (n : String) (t : List Char)
    (h : tryPat1 u = some (n, t)) : pyStrip t = t := by
  unfold tryPat1 at h
  split at h
  · next r h1 =>
    cases h
    exact tryPat1Sep_tail ':' u n t h1
  · exact tryPat1Sep_tail ',' u n t h

theorem pySplitNoneOnce_second (ms w r : List Char) (rest2 : List (List Char))
    (hnt : NoTrailingP pyIsSpace ms)
    (hsp : pySplitNoneOnce ms = w :: r :: rest2) : pyStrip r = r := by
  unfold pySplitNoneOnce at hsp
  rcases hys : ms.dropWhile pyIsSpace with _ | ⟨c, cs⟩ <;> rw [hys] at hsp <;> dsimp only at hsp
  · cases hsp
  · split at hsp
    · cases hsp
    · next hne =>
      have hr : r = ((c :: cs).dropWhile (fun x => !pyIsSpace x)).dropWhile pyIsSpace := by
        injection hsp with h1 h2
        injection h2 with h3 h4
        exact h3.symm
      have hsuf : r <:+ ms := by
        rw [hr]
        calc ((c :: cs).dropWhile (fun x => !pyIsSpace x)).dropWhile pyIsSpace
            <:+ (c :: cs).dropWhile (fun x => !pyIsSpace x) := List.dropWhile_suffix _
          _ <:+ (c :: cs) := List.dropWhile_suffix _
          _ <:+ ms := hys ▸ List.dropWhile_suffix _
      apply stripped_of_clean
      · rw [hr]
        exact dropWhile_head _ _
      · exact noTrailing_of_suffix _ hsuf hnt

theorem tryPat2_tail (u : List Char) (n : String) (t : List Char)
    (hnt : NoTrailingP pyIsSpace u)
    (h : tryPat2 u = some (n, t)) : pyStrip t = t := by
  unfold tryPat2 at h
  split at h
  · next ms =>
    rcases hsp : pySplitNoneOnce ms with _ | ⟨w, rest⟩ <;> rw [hsp] at h <;> dsimp only at h
    · cases h
    · rcases hm : matchChoomName w with _ | n2 <;> rw [hm] at h <;> dsimp only at h
      · cases h
      · rcases rest with _ | ⟨r, rest2⟩ <;> dsimp only at h
        · cases h
          rfl
        · cases h
          apply pySplitNoneOnce_second ms w t rest2 _ hsp
          apply noTrailing_of_suffix pyIsSpace _ hnt
          exact ⟨['@'], rfl⟩
  · cases h

theorem scanWords_tail (fuel : Nat) :
    ∀ (ws : List (List Char)) (n : String) (t : List Char),
      scanWords fuel ws = some (n, t) → pyStrip t = t := by
  induction fuel with
  | zero =>
    intro ws n t h
    cases ws <;> rw [scanWords] at h <;> cases h
  | succ fuel ih =>
    intro ws n t h
    cases ws with
    | nil =>
      rw [scanWords] at h
      cases h
    | cons w rest =>
      rw [scanWords] at h
      split at h
      · cases h
        exact pyStrip_idem _
      · split at h
        · exact ih rest n t h
        · cases h

theorem extract_some_tail (m t : List Char) (n : String)
    (h : extract_choom_name m = (some n, t)) : pyStrip t = t := by
  unfold extract_choom_name at h
  dsimp only at h
  rcases h1 : tryPat1 (pyStrip m) with _ | ⟨n1, t1⟩ <;> rw [h1] at h <;> dsimp only at h
  · rcases h2 : tryPat2 (pyStrip m) with _ | ⟨n2, t2⟩ <;> rw [h2] at h <;> dsimp only at h
    · rcases h3 : scanWords 5 (pySplitWs (pyStrip m)) with _ | ⟨n3, t3⟩ <;> rw [h3] at h <;> dsimp only at h
      · cases h
      · injection h with ha hb
        injection ha with ha
        subst ha hb
        exact scanWords_tail 5 _ _ _ h3
    · injection h with ha hb
      injection ha with ha
      subst ha hb
      exact tryPat2_tail _ _ _ (pyStrip_noTrailing m) h2
  · injection h with ha hb
    injection ha with ha
    subst ha hb
    exact tryPat1_tail _ _ _ h1

theorem extract_none_val (m r : List Char)
    (h : extract_choom_name m = (none, r)) : r = pyStrip m := by
  unfold extract_choom_name at h
  dsimp only at h
  rcases h1 : tryPat1 (pyStrip m) with _ | ⟨n1, t1⟩ <;> rw [h1] at h <;> dsimp only at h
  · rcases h2 : tryPat2 (pyStrip m) with _ | ⟨n2, t2⟩ <;> rw [h2] at h <;> dsimp only at h
    · rcases h3 : scanWords 5 (pySplitWs (pyStrip m)) with _ | ⟨n3, t3⟩ <;> rw [h3] at h <;> dsimp only at h
      · injection h with ha hb
        exact hb.symm
      · injection h with ha hb
        cases ha
    · injection h with ha hb
      cases ha
  · injection h with ha hb
    cases ha

/-- C5 (counterexample): the resolver is not idempotent on its own
output.  From `"lisa lisa hello"` it extracts `Lissa` with the cleaned
tail `"lisa hello"`; applied to that tail it extracts `Lissa` again
instead of returning the tail unchanged. -/
theorem extract_choom_name_not_idempotent :
    extract_choom_name "lisa lisa hello".data = (some "Lissa", "lisa hello".data) ∧
    extract_choom_name "lisa hello".data = (some "Lissa", "hello".data) ∧
    extract_choom_name "lisa hello".data ≠ (none, "lisa hello".data) :=
  ⟨by decide, by decide, by decide⟩

/-- C5 (amended): if the resolver extracts a name with tail `t`, then
whenever the resolver applied to `t` extracts no name it leaves the tail
unchanged, returning `(none, t)`; when the tail itself starts with a
companion name a further extraction may occur instead. -/
theorem extract_choom_name_tail_stable (m t : List Char) (n : String)
    (h : extract_choom_name m = (some n, t)) (r : List Char)
    (hr : extract_choom_name t = (none, r)) : r = t :=
  (extract_none_val t r hr).trans (extract_some_tail m t n h)

/-- Witness for the amended C5 theorem at a concrete input. -/
theorem extract_choom_name_tail_stable_witness :
    extract_choom_name "hey lisa hello".data = (some "Lissa", "hello".data) ∧
    extract_choom_name "hello".data = (none, "hello".data) ∧
    "hello".data = "hello".data :=
  ⟨by decide, by decide,
    extract_choom_name_tail_stable "hey lisa hello".data "hello".data "Lissa"
      (by decide) "hello".data (by decide)⟩

end Choom
